import Mathlib

/-!
# Verification development for the MTProto 2.0 session-state core (gramjs-browser)

Shallow embedding of `MTProtoState` (key derivation, message-ID and sequence
generation, replay window, encrypt/decrypt of message bodies) from the
repository source, together with theorems settling the frozen claims.

Bytes are modelled as `List Nat` with each entry in `[0, 256)` by construction.
Big integers (the `big-integer` JS library) are modelled as `Int`; JS `number`
counters as `Nat`/`Int`.  The opaque collaborators (AES-IGE cipher, random-byte
source, TL object decoder) are parameters of the operations that consume them;
SHA-256 is implemented concretely below so that concrete inputs evaluate.
-/

/-! ## Byte-buffer helpers (little/big-endian integer codecs)

These model the repository helpers `readBigIntFromBuffer` (little-endian,
unsigned), `readBufferFromBigInt` / `toSignedLittleBuffer` (little-endian,
twos complement) and the `BinaryReader.readLong` / `readInt` signed reads. -/

/-- Interpret a byte list as an unsigned little-endian natural. -/
def bytesToNatLE : List Nat → Nat
  | [] => 0
  | b :: bs => b + 256 * bytesToNatLE bs

/-- Encode `n` as `k` little-endian bytes (mod `2^(8*k)`). -/
def natToBytesLE : Nat → Nat → List Nat
  | 0, _ => []
  | k + 1, n => n % 256 :: natToBytesLE k (n / 256)

/-- Encode `n` as `k` big-endian bytes. -/
def natToBytesBE (k n : Nat) : List Nat :=
  (natToBytesLE k n).reverse

/-- Twos-complement little-endian encoding of an integer on `count` bytes,
as produced by the repository helper `toSignedLittleBuffer`. -/
def toSignedLittleBuffer (n : Int) (count : Nat) : List Nat :=
  natToBytesLE count (n.emod (2 ^ (8 * count))).toNat

/-- Signed 64-bit little-endian read (`BinaryReader.readLong`). -/
def readSigned64LE (bs : List Nat) : Int :=
  let u := bytesToNatLE bs
  if u < 2 ^ 63 then (u : Int) else (u : Int) - 2 ^ 64

/-- Signed 32-bit little-endian read (`BinaryReader.readInt`). -/
def readSigned32LE (bs : List Nat) : Int :=
  let u := bytesToNatLE bs
  if u < 2 ^ 31 then (u : Int) else (u : Int) - 2 ^ 32

/-! ## SHA-256 (the `Helpers.sha256` collaborator), executable -/

/-- Rotate a 32-bit word right by `n` bits. -/
def rotr32 (n x : Nat) : Nat :=
  ((x >>> n) ||| (x <<< (32 - n))) % 2 ^ 32

/-- SHA-256 round constants (fractional parts of cube roots of the first 64
primes). -/
def shaK : List Nat :=
  [1116352408, 1899447441, 3049323471, 3921009573, 961987163, 1508970993,
   2453635748, 2870763221, 3624381080, 310598401, 607225278, 1426881987,
   1925078388, 2162078206, 2614888103, 3248222580, 3835390401, 4022224774,
   264347078, 604807628, 770255983, 1249150122, 1555081692, 1996064986,
   2554220882, 2821834349, 2952996808, 3210313671, 3336571891, 3584528711,
   113926993, 338241895, 666307205, 773529912, 1294757372, 1396182291,
   1695183700, 1986661051, 2177026350, 2456956037, 2730485921, 2820302411,
   3259730800, 3345764771, 3516065817, 3600352804, 4094571909, 275423344,
   430227734, 506948616, 659060556, 883997877, 958139571, 1322822218,
   1537002063, 1747873779, 1955562222, 2024104815, 2227730452, 2361852424,
   2428436474, 2756734187, 3204031479, 3329325298]

/-- SHA-256 initial hash state. -/
def shaH0 : List Nat :=
  [1779033703, 3144134277, 1013904242, 2773480762, 1359893119, 2600822924,
   528734635, 1541459225]

/-- Merkle–Damgård padding: append `0x80`, zeros to 56 mod 64, then the
64-bit big-endian bit length. -/
def shaPad (msg : List Nat) : List Nat :=
  let len := msg.length
  let zeros := (119 - len % 64) % 64
  msg ++ [0x80] ++ List.replicate zeros 0 ++ natToBytesBE 8 (8 * len)

/-- Big-endian 32-bit words from a byte list. -/
def beWords : List Nat → List Nat
  | a :: b :: c :: d :: rest => (((a * 256 + b) * 256 + c) * 256 + d) :: beWords rest
  | _ => []

/-- Message-schedule extension: `fuel` further words, most recent first. -/
def extendW : Nat → List Nat → List Nat
  | 0, acc => acc
  | n + 1, acc =>
    let w15 := acc.getD 14 0
    let w2 := acc.getD 1 0
    let w7 := acc.getD 6 0
    let w16 := acc.getD 15 0
    let s0 := (rotr32 7 w15) ^^^ (rotr32 18 w15) ^^^ (w15 >>> 3)
    let s1 := (rotr32 17 w2) ^^^ (rotr32 19 w2) ^^^ (w2 >>> 10)
    extendW n (((w16 + s0 + w7 + s1) % 2 ^ 32) :: acc)

/-- One SHA-256 compression round on the 8-word working state. -/
def shaRound (st : List Nat) (k w : Nat) : List Nat :=
  match st with
  | [a, b, c, d, e, f, g, h] =>
    let s1 := (rotr32 6 e) ^^^ (rotr32 11 e) ^^^ (rotr32 25 e)
    let ch := (e &&& f) ^^^ ((e ^^^ 0xffffffff) &&& g)
    let t1 := (h + s1 + ch + k + w) % 2 ^ 32
    let s0 := (rotr32 2 a) ^^^ (rotr32 13 a) ^^^ (rotr32 22 a)
    let mj := (a &&& b) ^^^ (a &&& c) ^^^ (b &&& c)
    let t2 := (s0 + mj) % 2 ^ 32
    [(t1 + t2) % 2 ^ 32, a, b, c, (d + t1) % 2 ^ 32, e, f, g]
  | _ => st

/-- Compress one 64-byte block into the running hash state. -/
def shaCompress (hs block : List Nat) : List Nat :=
  let w := (extendW 48 (beWords block).reverse).reverse
  let st := (shaK.zip w).foldl (fun s p => shaRound s p.1 p.2) hs
  (hs.zip st).map fun p => (p.1 + p.2) % 2 ^ 32

/-- Split into 64-byte chunks (`fuel` bounds the recursion by the length). -/
def chunks64 : Nat → List Nat → List (List Nat)
  | 0, _ => []
  | _, [] => []
  | fuel + 1, l => l.take 64 :: chunks64 fuel (l.drop 64)

/-- SHA-256 of a byte list, as a 32-byte list. -/
def sha256 (msg : List Nat) : List Nat :=
  let padded := shaPad msg
  let hs := (chunks64 padded.length padded).foldl shaCompress shaH0
  hs.foldr (fun h acc => natToBytesBE 4 h ++ acc) []

/-- FIPS 180-4 test vector: SHA-256 of the empty message. -/
theorem sha256_empty_vector :
    sha256 [] =
      [227, 176, 196, 66, 152, 252, 28, 20, 154, 251, 244, 200,
       153, 111, 185, 36, 39, 174, 65, 228, 100, 155, 147, 76,
       164, 149, 153, 27, 120, 82, 184, 85] := by decide

/-- FIPS 180-4 test vector: SHA-256 of `"abc"`. -/
theorem sha256_abc_vector :
    sha256 [97, 98, 99] =
      [186, 120, 22, 191, 143, 1, 207, 234, 65, 65, 64, 222,
       93, 174, 34, 35, 176, 3, 97, 163, 150, 23, 122, 156,
       180, 16, 255, 97, 242, 0, 21, 173] := by decide

/-! ## Data model (`MTProtoState` and collaborators) -/

/-- The authorization-key capability (external collaborator): raw 256-byte key
and 8-byte key identifier, each possibly not yet available. The asynchronous
`waitForKey` of the source is a no-op at this level of modelling. -/
structure AuthKey where
  key : Option (List Nat)
  keyId : Option Nat
deriving DecidableEq

/-- The protocol state object, translated field by field from the source
constructor. Big integers (`big-integer` objects `salt`, `id`, `_lastMsgId`)
are `Int`; `msgIds` stores seen remote IDs — the source stores their decimal
strings and membership-tests with string equality, which coincides with
integer equality since decimal printing of big integers is injective. -/
structure MTProtoState where
  authKey : Option AuthKey
  timeOffset : Int
  salt : Int
  sequence : Nat
  id : Int
  lastMsgId : Int
  msgIds : List Int
  securityChecks : Bool
deriving DecidableEq

/-- The record returned by `decryptMessageData` (`new TLMessage(remoteMsgId,
remoteSequence, obj)` in the source): remote message ID, remote sequence
number, decoded object. -/
structure TLMessage (α : Type) where
  msgId : Int
  seqNo : Int
  obj : α
deriving DecidableEq

/-- One wall-clock observation consumed by `_getNewMsgId`: the integer part
`secs` of `now = Date.now()/1000 + timeOffset` and the derived nanosecond
component `nanos = floor(frac(now) * 1e9)` (always `< 10^9 < 2^30` in the
source). -/
structure MsgIdObs where
  secs : Int
  nanos : Nat
deriving DecidableEq

/-- The clock-derived candidate `bigInt(secs) << 32 | bigInt(nanos) << 2` of
`_getNewMsgId`. Since `secs << 32` has zero low 32 bits (also for negative
values, under the twos-complement bitwise semantics of the big-integer
library) and `nanos << 2 < 2^32` when `nanos < 2^30`, the bitwise OR is
exactly this sum. -/
def MsgIdObs.candidate (o : MsgIdObs) : Int :=
  o.secs * 2 ^ 32 + 4 * (o.nanos : Int)

/-! ## Operations of `MTProtoState` -/

/-- Sequence-number generation (`MTProtoState._getSeqNo`): a content-related
call returns `sequence * 2 + 1` and then increments the counter; a
non-content call returns `sequence * 2` and leaves the state unchanged. -/
def MTProtoState._getSeqNo (st : MTProtoState) (contentRelated : Bool) :
    Nat × MTProtoState :=
  if contentRelated then
    (st.sequence * 2 + 1, { st with sequence := st.sequence + 1 })
  else
    (st.sequence * 2, st)

/-- Message-ID generation (`MTProtoState._getNewMsgId`): clamp the clock
candidate to `lastMsgId + 4` whenever `lastMsgId >= candidate`, store the
result as the new `lastMsgId`, return it. -/
def MTProtoState._getNewMsgId (st : MTProtoState) (obs : MsgIdObs) :
    Int × MTProtoState :=
  let newMsgId := obs.candidate
  let newMsgId := if st.lastMsgId ≥ newMsgId then st.lastMsgId + 4 else newMsgId
  (newMsgId, { st with lastMsgId := newMsgId })

/-- Time-offset correction (`MTProtoState.updateTimeOffset`). The source
first calls `_getNewMsgId()` (binding the discarded `bad`, mutating
`_lastMsgId`), then computes `correct = correctMsgId >> 32` (arithmetic
shift, i.e. floor division) and `now = floor(Date.now()/1000)` (the `now`
argument here), stores `correct - now` as the offset and, when the offset
changed, resets `_lastMsgId` to zero. -/
def MTProtoState.updateTimeOffset (st : MTProtoState) (obs : MsgIdObs)
    (now : Int) (correctMsgId : Int) : Int × MTProtoState :=
  let st1 := (st._getNewMsgId obs).2
  let old := st1.timeOffset
  let correct := correctMsgId.fdiv (2 ^ 32)
  let newOffset := correct - now
  let st2 := { st1 with timeOffset := newOffset }
  if newOffset ≠ old then (newOffset, { st2 with lastMsgId := 0 })
  else (newOffset, st2)

/-- Key derivation (`MTProtoState._calcKey`), translated slice by slice from
the source (`authKey.slice(a, b)` is `(drop a).take (b - a)`). It reads no
state, so it is a plain function here. -/
def _calcKey (authKey msgKey : List Nat) (client : Bool) :
    List Nat × List Nat :=
  let x := if client then 0 else 8
  let sha256a := sha256 (msgKey ++ (authKey.drop x).take 36)
  let sha256b := sha256 ((authKey.drop (x + 40)).take 36 ++ msgKey)
  let key := sha256a.take 8 ++ (sha256b.drop 8).take 16 ++ (sha256a.drop 24).take 8
  let iv := sha256b.take 8 ++ (sha256a.drop 8).take 16 ++ (sha256b.drop 24).take 8
  (key, iv)

/-- Byte-range notation of the spec: `l[a : b]`. -/
def sliceBytes (l : List Nat) (a b : Nat) : List Nat :=
  (l.drop a).take (b - a)

/-- Key derivation exactly as worded by the spec (section 4.1), for the
refinement claim C4: `x = 0` iff the client flag is set,
`sha256a = SHA256(messageKey || masterKey[x : x+36])`,
`sha256b = SHA256(masterKey[x+40 : x+76] || messageKey)`,
`key = sha256a[0:8] || sha256b[8:24] || sha256a[24:32]`,
`iv = sha256b[0:8] || sha256a[8:24] || sha256b[24:32]`. -/
def calcKeySpec (masterKey messageKey : List Nat) (client : Bool) :
    List Nat × List Nat :=
  let x := if client then 0 else 8
  let sha256a := sha256 (messageKey ++ sliceBytes masterKey x (x + 36))
  let sha256b := sha256 (sliceBytes masterKey (x + 40) (x + 76) ++ messageKey)
  (sliceBytes sha256a 0 8 ++ sliceBytes sha256b 8 24 ++ sliceBytes sha256a 24 32,
   sliceBytes sha256b 0 8 ++ sliceBytes sha256a 8 24 ++ sliceBytes sha256b 24 32)

/-- Failures of `encryptMessageData` (`Error("Auth key unset")` and
`Error("Unset params")` in the source). -/
inductive EncryptError where
  | authKeyUnset
  | unsetParams
deriving DecidableEq

/-- Failures of `decryptMessageData`: the plain `Error("Auth key unset")`,
`InvalidBufferError`, the three `SecurityError` cases, and the reader /
decoder failures of the external serialization layer (`parseError`). -/
inductive DecryptError where
  | authKeyUnset
  | invalidBuffer
  | invalidAuthKey
  | unsetAuthKey
  | msgKeyMismatch
  | duplicateMsgId
  | parseError
deriving DecidableEq

/-- The replay-window block of `decryptMessageData` (source lines 201-208):
reject a duplicate when security checks are enabled, otherwise evict the
oldest entry when more than 500 are stored (`shift`) and append (`push`). -/
def checkAndRecord (securityChecks : Bool) (msgIds : List Int)
    (remoteMsgId : Int) : Option (List Int) :=
  if msgIds.contains remoteMsgId && securityChecks then
    none
  else
    let msgIds := if msgIds.length > 500 then msgIds.tail else msgIds
    some (msgIds ++ [remoteMsgId])

/-- Encryption (`MTProtoState.encryptMessageData`). The opaque collaborators
are parameters: `encryptIge key iv data` is the AES-IGE cipher and
`randomBytes n` the cryptographic random source (`generateRandomBytes`).
`helpers.mod(n, 16)` of the source is the mathematical modulus `Int.emod`. -/
def MTProtoState.encryptMessageData (st : MTProtoState)
    (encryptIge : List Nat → List Nat → List Nat → List Nat)
    (randomBytes : Nat → List Nat)
    (data : List Nat) : Except EncryptError (List Nat) :=
  match st.authKey with
  | none => .error .authKeyUnset
  | some ak =>
    match ak.key with
    | none => .error .authKeyUnset
    | some authKey =>
      match ak.keyId with
      | none => .error .unsetParams
      | some keyId =>
        let s := toSignedLittleBuffer st.salt 8
        let i := toSignedLittleBuffer st.id 8
        let data := (s ++ i) ++ data
        let padding := randomBytes (((-(data.length + 12 : Int)).emod 16).toNat + 12)
        let msgKeyLarge := sha256 ((authKey.drop 88).take 32 ++ data ++ padding)
        let msgKey := (msgKeyLarge.drop 8).take 16
        let kiv := _calcKey authKey msgKey true
        .ok (natToBytesLE 8 keyId ++ msgKey ++ encryptIge kiv.1 kiv.2 (data ++ padding))

/-- Decryption (`MTProtoState.decryptMessageData`). `decryptIge key iv data`
is the opaque AES-IGE decryption and `tgReadObject` the external TL decoder
(`BinaryReader.tgReadObject`, fallible). A thrown JS exception leaves the
mutations performed so far in place, so the error case carries the state at
throw time. Short reads of the `BinaryReader` (which throws when fewer bytes
remain than requested) are the `parseError` guards. -/
def MTProtoState.decryptMessageData {α : Type} (st : MTProtoState)
    (decryptIge : List Nat → List Nat → List Nat → List Nat)
    (tgReadObject : List Nat → Option α)
    (body : List Nat) :
    Except (DecryptError × MTProtoState) (TLMessage α × MTProtoState) :=
  match st.authKey with
  | none => .error (.authKeyUnset, st)
  | some ak =>
    if body.length < 8 then .error (.invalidBuffer, st)
    else
      let keyId := bytesToNatLE (body.take 8)
      match ak.keyId with
      | none => .error (.invalidAuthKey, st)
      | some akId =>
        if keyId ≠ akId then .error (.invalidAuthKey, st)
        else
          match ak.key with
          | none => .error (.unsetAuthKey, st)
          | some authKey =>
            let msgKey := (body.drop 8).take 16
            let kiv := _calcKey authKey msgKey false
            let plain := decryptIge kiv.1 kiv.2 (body.drop 24)
            let ourKey := sha256 ((authKey.drop 96).take 32 ++ plain)
            if msgKey ≠ (ourKey.drop 8).take 16 then .error (.msgKeyMismatch, st)
            else
              -- salt (8 bytes, ignored), session id (8 bytes, mismatch
              -- deliberately non-fatal: the check is commented out in the
              -- source), remote message id (8 bytes)
              if plain.length < 24 then .error (.parseError, st)
              else
                let remoteMsgId := readSigned64LE ((plain.drop 16).take 8)
                match checkAndRecord st.securityChecks st.msgIds remoteMsgId with
                | none => .error (.duplicateMsgId, st)
                | some newIds =>
                  let stRec := { st with msgIds := newIds }
                  if plain.length < 32 then .error (.parseError, stRec)
                  else
                    let remoteSequence := readSigned32LE ((plain.drop 24).take 4)
                    match tgReadObject (plain.drop 32) with
                    | none => .error (.parseError, stRec)
                    | some obj => .ok (⟨remoteMsgId, remoteSequence, obj⟩, stRec)

/-- Modelled from the spec: the server-side counterpart of
`encryptMessageData`, which is not part of this repository (it runs on the
remote server; only the client half is in the source). Per spec section 4.1
("both directions of a connection use the same function with the flag
flipped") and the MTProto rule quoted in the source comment
(`msg_key_large = SHA256(substr(auth_key, 88+x, 32) + pt + padding)` with
`x = 8` for messages from the server): identical to `encryptMessageData`
except that the message key is taken over `authKey[96:128]` and the cipher
key/IV are derived with the client flag false. -/
def MTProtoState.serverEncryptMessageData (st : MTProtoState)
    (encryptIge : List Nat → List Nat → List Nat → List Nat)
    (randomBytes : Nat → List Nat)
    (data : List Nat) : Except EncryptError (List Nat) :=
  match st.authKey with
  | none => .error .authKeyUnset
  | some ak =>
    match ak.key with
    | none => .error .authKeyUnset
    | some authKey =>
      match ak.keyId with
      | none => .error .unsetParams
      | some keyId =>
        let s := toSignedLittleBuffer st.salt 8
        let i := toSignedLittleBuffer st.id 8
        let data := (s ++ i) ++ data
        let padding := randomBytes (((-(data.length + 12 : Int)).emod 16).toNat + 12)
        let msgKeyLarge := sha256 ((authKey.drop 96).take 32 ++ data ++ padding)
        let msgKey := (msgKeyLarge.drop 8).take 16
        let kiv := _calcKey authKey msgKey false
        .ok (natToBytesLE 8 keyId ++ msgKey ++ encryptIge kiv.1 kiv.2 (data ++ padding))

/-! ## Iteration drivers and fixtures -/

/-- Run `_getSeqNo` over a list of content-related flags, collecting the
returned sequence numbers. -/
def MTProtoState.getSeqNos (st : MTProtoState) : List Bool → List Nat × MTProtoState
  | [] => ([], st)
  | b :: bs =>
    let r := st._getSeqNo b
    let rest := r.2.getSeqNos bs
    (r.1 :: rest.1, rest.2)

/-- Run `_getNewMsgId` over a list of clock observations, collecting the
returned message IDs. -/
def MTProtoState.getNewMsgIds (st : MTProtoState) : List MsgIdObs → List Int × MTProtoState
  | [] => ([], st)
  | o :: os =>
    let r := st._getNewMsgId o
    let rest := r.2.getNewMsgIds os
    (r.1 :: rest.1, rest.2)

/-- Run the replay-window block over a list of incoming remote IDs,
failing on the first rejected duplicate. -/
def recordAll (securityChecks : Bool) : List Int → List Int → Option (List Int)
  | ids, [] => some ids
  | ids, x :: xs =>
    match checkAndRecord securityChecks ids x with
    | none => none
    | some ids2 => recordAll securityChecks ids2 xs

/-- A state as produced by the constructor with no authorization key:
all counters zero, replay window empty, security checks enabled. -/
def freshState : MTProtoState :=
  { authKey := none, timeOffset := 0, salt := 0, sequence := 0, id := 0,
    lastMsgId := 0, msgIds := [], securityChecks := true }

/-- The identity cipher: an (extreme) instance of an IGE pair whose
decryption inverts its encryption even across mismatched keys. -/
def igeId : List Nat → List Nat → List Nat → List Nat :=
  fun _ _ data => data

/-- A deterministic stand-in for the random-byte source. -/
def zeroBytes (n : Nat) : List Nat :=
  List.replicate n 0

/-! ## Generic lemmas about the message-ID generator -/

/-- Each call to `_getNewMsgId` returns a value strictly greater than the
stored `lastMsgId`. -/
theorem getNewMsgId_gt (st : MTProtoState) (obs : MsgIdObs) :
    st.lastMsgId < (st._getNewMsgId obs).1 := by
  simp only [MTProtoState._getNewMsgId]
  split <;> omega

/-- `_getNewMsgId` stores the value it returns. -/
theorem getNewMsgId_store (st : MTProtoState) (obs : MsgIdObs) :
    (st._getNewMsgId obs).2.lastMsgId = (st._getNewMsgId obs).1 := by
  simp only [MTProtoState._getNewMsgId]

/-- `_getNewMsgId` changes no field other than `lastMsgId`. -/
theorem getNewMsgId_frame (st : MTProtoState) (obs : MsgIdObs) :
    (st._getNewMsgId obs).2 = { st with lastMsgId := (st._getNewMsgId obs).1 } := by
  simp only [MTProtoState._getNewMsgId]

/-- When the stored `lastMsgId` is a non-negative multiple of 4 (as every
reachable one is: it starts at 0, is reset to 0, and is otherwise set to a
clamped value `lastMsgId + 4` or to a candidate `secs * 2^32 + 4 * nanos`),
each call advances it by at least 4. -/
theorem getNewMsgId_ge_add_four (st : MTProtoState) (obs : MsgIdObs)
    (h4 : (4 : Int) ∣ st.lastMsgId) :
    st.lastMsgId + 4 ≤ (st._getNewMsgId obs).1 := by
  simp only [MTProtoState._getNewMsgId, MsgIdObs.candidate]
  split <;> omega

/-- Normal form of `updateTimeOffset`: the returned offset is
`fdiv correctMsgId (2^32) - now`, and the final state either resets
`lastMsgId` to zero (offset changed) or keeps the value stored by the
internal `_getNewMsgId` call (offset unchanged). -/
theorem updateTimeOffset_eq (st : MTProtoState) (obs : MsgIdObs)
    (now correctMsgId : Int) :
    st.updateTimeOffset obs now correctMsgId =
      (correctMsgId.fdiv (2 ^ 32) - now,
       if correctMsgId.fdiv (2 ^ 32) - now ≠ st.timeOffset then
         { st with timeOffset := correctMsgId.fdiv (2 ^ 32) - now,
                   lastMsgId := 0 }
       else
         { st with timeOffset := correctMsgId.fdiv (2 ^ 32) - now,
                   lastMsgId := (st._getNewMsgId obs).1 }) := by
  simp only [MTProtoState.updateTimeOffset, getNewMsgId_frame]
  split <;> rfl

/-- Outputs of iterated `_getNewMsgId` calls form a `<`-chain above the
initial `lastMsgId`. -/
theorem getNewMsgIds_chain (l : List MsgIdObs) (st : MTProtoState) :
    List.Chain (· < ·) st.lastMsgId (st.getNewMsgIds l).1 := by
  induction l generalizing st with
  | nil => exact List.Chain.nil
  | cons o os ih =>
    simp only [MTProtoState.getNewMsgIds]
    refine List.Chain.cons (getNewMsgId_gt st o) ?_
    have h := ih (st._getNewMsgId o).2
    rwa [getNewMsgId_store] at h

/-! ## Claim C1 (sequence generator) -/

/-- C1 counterexample: from a fresh state (sequence counter 0), the four
calls with content flags `[true, true, false, true]` return `[1, 3, 4, 5]`,
not `[1, 3, 4, 7]` as the claim states (the third content-related call finds
the counter at 2, hence returns `2*2 + 1 = 5`). -/
theorem C1_counterexample :
    (freshState.getSeqNos [true, true, false, true]).1 = [1, 3, 4, 5] ∧
    (freshState.getSeqNos [true, true, false, true]).1 ≠ [1, 3, 4, 7] := by
  decide

/-- C1 (amended): a content-related call to `_getSeqNo` returns
`sequence * 2 + 1` and then increments the counter by 1; a non-content call
returns `sequence * 2` without mutating the state; and from a counter at 0
the four successive calls with flags `[content, content, non-content,
content]` return `[1, 3, 4, 5]`. -/
theorem C1_seqNo_amended (st : MTProtoState) :
    (st._getSeqNo true).1 = st.sequence * 2 + 1 ∧
    (st._getSeqNo true).2 = { st with sequence := st.sequence + 1 } ∧
    st._getSeqNo false = (st.sequence * 2, st) ∧
    (({ st with sequence := 0 }).getSeqNos [true, true, false, true]).1 =
      [1, 3, 4, 5] :=
  ⟨rfl, rfl, rfl, rfl⟩

/-! ## Claim C2 (replay window bound) -/

/-- A fresh remote ID is not flagged by the Boolean membership test. -/
theorem contains_eq_false_of_not_mem {ids : List Int} {x : Int}
    (hx : x ∉ ids) : ids.contains x = false := by
  simp [hx]

/-- Accepting a fresh ID into a window of at most 500 entries appends it
without eviction. -/
theorem checkAndRecord_fresh_le (sec : Bool) (ids : List Int) (x : Int)
    (hx : x ∉ ids) (h : ids.length ≤ 500) :
    checkAndRecord sec ids x = some (ids ++ [x]) := by
  unfold checkAndRecord
  rw [contains_eq_false_of_not_mem hx]
  simp only [Bool.false_and, Bool.false_eq_true, if_false]
  rw [if_neg (by omega)]

/-- Accepting a fresh ID into a window of more than 500 entries first
evicts the oldest entry. -/
theorem checkAndRecord_fresh_gt (sec : Bool) (ids : List Int) (x : Int)
    (hx : x ∉ ids) (h : 500 < ids.length) :
    checkAndRecord sec ids x = some (ids.tail ++ [x]) := by
  unfold checkAndRecord
  rw [contains_eq_false_of_not_mem hx]
  simp only [Bool.false_and, Bool.false_eq_true, if_false]
  rw [if_pos (by omega)]

/-- A remote ID already in the window is rejected when security checks are
enabled. -/
theorem checkAndRecord_dup (ids : List Int) (x : Int) (hx : x ∈ ids) :
    checkAndRecord true ids x = none := by
  unfold checkAndRecord
  simp [hx]

/-- `recordAll` processes an appended list in two stages. -/
theorem recordAll_append (sec : Bool) (l1 l2 : List Int) :
    ∀ ids, recordAll sec ids (l1 ++ l2) =
      (recordAll sec ids l1).bind fun ids2 => recordAll sec ids2 l2 := by
  induction l1 with
  | nil => intro ids; simp [recordAll]
  | cons x xs ih =>
    intro ids
    simp only [List.cons_append, recordAll]
    cases checkAndRecord sec ids x with
    | none => simp
    | some ids2 => simp [ih]

/-- Recording a list of IDs all distinct from each other and from the
current window contents, with room below the 501 bound throughout, appends
them all in arrival order. -/
theorem recordAll_nodup_le (sec : Bool) :
    ∀ (l ids : List Int), (ids ++ l).Nodup → ids.length + l.length ≤ 501 →
      recordAll sec ids l = some (ids ++ l)
  | [], ids, _, _ => by simp [recordAll]
  | x :: xs, ids, hnd, hlen => by
    have hx : x ∉ ids := fun hmem => by
      have := (List.nodup_append.mp hnd).2.2
      exact this hmem (by simp)
    have h1 : checkAndRecord sec ids x = some (ids ++ [x]) :=
      checkAndRecord_fresh_le sec ids x hx (by simp at hlen; omega)
    have hnd2 : ((ids ++ [x]) ++ xs).Nodup := by
      rwa [List.append_cons] at hnd
    have := recordAll_nodup_le sec xs (ids ++ [x]) hnd2
      (by simp at hlen ⊢; omega)
    rw [List.append_cons]
    simp only [recordAll, h1, this]

/-- The distinct remote IDs `a, a+1, ..., a+n-1` as integers. -/
def intRange (a n : Nat) : List Int :=
  (List.range' a n).map Int.ofNat

theorem intRange_length (a n : Nat) : (intRange a n).length = n := by
  simp [intRange]

theorem intRange_nodup (a n : Nat) : (intRange a n).Nodup :=
  (List.nodup_range' a n).map fun p q h => Int.ofNat.inj h

/-- C2 counterexample: recording the 501 distinct remote IDs `0, ..., 500`
into an empty replay window (the recording discipline of
`decryptMessageData`, source lines 201-208: evict only when *more* than 500
entries are already stored, then push) leaves all 501 of them stored — the
collection exceeds 500 entries — and the first recorded ID is then still
flagged as a duplicate, contradicting both bounds stated by the claim. -/
theorem C2_counterexample :
    recordAll true [] (intRange 0 501) = some (intRange 0 501) ∧
    (intRange 0 501).length = 501 ∧
    checkAndRecord true (intRange 0 501) 0 = none := by
  refine ⟨?_, intRange_length 0 501, ?_⟩
  · have h := recordAll_nodup_le true (intRange 0 501) []
      (by simpa using intRange_nodup 0 501)
      (by simp [intRange_length])
    simpa using h
  · refine checkAndRecord_dup _ _ ?_
    refine List.mem_map.mpr ⟨0, ?_, rfl⟩
    simp

/-- C2 (amended): each recording step preserves the bound of 501 entries
(not 500), evicting the oldest entry (FIFO) exactly when more than 500 are
already stored; and after recording 502 distinct remote IDs into an empty
window the first one recorded is no longer flagged as a duplicate (it would
be accepted again, evicting the new oldest entry) while the most recent 501
all are. -/
theorem C2_replayWindow_amended :
    (∀ (sec : Bool) (ids : List Int) (x : Int) (ids2 : List Int),
      ids.length ≤ 501 → checkAndRecord sec ids x = some ids2 →
      ids2.length ≤ 501 ∧
      (500 < ids.length → ids2 = ids.tail ++ [x]) ∧
      (ids.length ≤ 500 → ids2 = ids ++ [x])) ∧
    (∀ (x : Int) (xs : List Int), (x :: xs).Nodup → xs.length = 501 →
      recordAll true [] (x :: xs) = some xs ∧
      checkAndRecord true xs x = some (xs.tail ++ [x]) ∧
      ∀ y ∈ xs, checkAndRecord true xs y = none) := by
  constructor
  · intro sec ids x ids2 hlen h
    simp only [checkAndRecord] at h
    split at h
    · exact absurd h (by simp)
    · split at h <;>
        (rename_i hgt <;> injection h with h <;> subst h) <;>
        refine ⟨?_, ?_, ?_⟩ <;>
        simp_all [List.length_tail] <;> omega
  · intro x xs hnd hlen
    have hxmem : x ∉ xs := (List.nodup_cons.mp hnd).1
    have hxs : xs.Nodup := (List.nodup_cons.mp hnd).2
    refine ⟨?_, checkAndRecord_fresh_gt true xs x hxmem (by omega), ?_⟩
    · -- decompose xs = ys ++ [z]
      rcases List.eq_nil_or_concat xs with rfl | ⟨ys, z, rfl⟩
      · simp at hlen
      rw [List.concat_eq_append] at *
      have hylen : ys.length = 500 := by simp at hlen; omega
      have hxy : x ∉ ys := fun h => hxmem (by simp [h])
      have hzx : z ≠ x := fun h => hxmem (by simp [h])
      have hna := List.nodup_append.mp hxs
      have hzy : z ∉ ys := fun h => hna.2.2 h (by simp)
      have h1 : checkAndRecord true [] x = some [x] :=
        checkAndRecord_fresh_le true [] x (by simp) (by simp)
      have hnd1 : ([x] ++ ys).Nodup := by
        rw [List.singleton_append]
        exact List.nodup_cons.mpr ⟨hxy, hna.1⟩
      have h2 : recordAll true [x] ys = some (x :: ys) := by
        have h := recordAll_nodup_le true ys [x] hnd1 (by simp [hylen])
        rwa [List.singleton_append] at h
      have hz2 : z ∉ x :: ys := by simp [hzx, hzy]
      have h3 : checkAndRecord true (x :: ys) z = some (ys ++ [z]) := by
        have h := checkAndRecord_fresh_gt true (x :: ys) z hz2 (by simp [hylen])
        simpa using h
      calc recordAll true [] (x :: (ys ++ [z]))
          = recordAll true [x] (ys ++ [z]) := by
            simp only [recordAll, h1]
        _ = some (ys ++ [z]) := by
            rw [recordAll_append, h2, Option.some_bind]
            simp only [recordAll, h3]
    · intro y hy
      exact checkAndRecord_dup xs y hy

/-- Witness for the amended C2: both parts applied at concrete windows —
recording 7 into the window `[5]`, and the 502-distinct-IDs scenario at
`0, 1, ..., 501`. -/
theorem C2_replayWindow_amended_witness :
    ([5] : List Int).length ≤ 501 ∧
    checkAndRecord true [5] 7 = some [5, 7] ∧
    ([5, 7] : List Int).length ≤ 501 ∧
    recordAll true [] ((0 : Int) :: intRange 1 501) = some (intRange 1 501) :=
  ⟨by decide, by decide,
    (C2_replayWindow_amended.1 true [5] 7 [5, 7] (by decide) (by decide)).1,
    (C2_replayWindow_amended.2 0 (intRange 1 501)
      (by
        refine List.nodup_cons.mpr ⟨?_, intRange_nodup 1 501⟩
        intro hmem
        obtain ⟨a, ha, hcast⟩ := List.mem_map.mp hmem
        have ha0 : a = 0 := Int.ofNat.inj hcast
        subst ha0
        simp [List.mem_range'_1] at ha)
      (intRange_length 1 501)).1⟩

/-! ## Claim C3 (message-ID monotonicity) -/

/-- C3: `_getNewMsgId` returns the clock candidate unless it is at most the
stored `lastMsgId`, in which case it returns `lastMsgId + 4`; it always
stores the returned value (and changes nothing else); and over any sequence
of calls, whatever wall-clock values are observed, the returned message IDs
are strictly increasing. -/
theorem C3_msgId_monotonic (st : MTProtoState) (obs : MsgIdObs)
    (l : List MsgIdObs) :
    (st._getNewMsgId obs).1 =
      (if obs.candidate ≤ st.lastMsgId then st.lastMsgId + 4 else obs.candidate) ∧
    (st._getNewMsgId obs).2 =
      { st with lastMsgId := (st._getNewMsgId obs).1 } ∧
    List.Chain' (· < ·) (st.getNewMsgIds l).1 := by
  refine ⟨rfl, getNewMsgId_frame st obs, ?_⟩
  have h := getNewMsgIds_chain l st
  cases hl : (st.getNewMsgIds l).1 with
  | nil => exact List.chain'_nil
  | cons a t =>
    rw [hl] at h
    exact (List.chain_cons.mp h).2

/-! ## Claim C4 (key deriver matches the spec formula, pure) -/

/-- C4: the key deriver is a pure function of the master key, the message
key and the client flag, and returns exactly the key/IV mixing formula the
spec states (`calcKeySpec` is transcribed from the spec text, `_calcKey`
from the source). -/
theorem C4_calcKey_matches_spec (authKey msgKey : List Nat) (client : Bool) :
    _calcKey authKey msgKey client = calcKeySpec authKey msgKey client := by
  cases client <;> rfl

/-! ## Claim C5 (time-offset update) -/

/-- C5: `updateTimeOffset` returns `(correctMsgId >> 32) - now` (arithmetic
shift, i.e. floor division, of the known-good ID; `now` the floored local
wall-clock seconds), stores that value as the new `timeOffset`, and resets
`lastMsgId` to zero exactly when the value differs from the previously
stored offset (when it does not differ, `lastMsgId` is left at the non-zero
value the internal `_getNewMsgId` call produced). -/
theorem C5_updateTimeOffset (st : MTProtoState) (obs : MsgIdObs)
    (now correctMsgId : Int) (h : 0 ≤ st.lastMsgId) :
    (st.updateTimeOffset obs now correctMsgId).1 =
      correctMsgId.fdiv (2 ^ 32) - now ∧
    (st.updateTimeOffset obs now correctMsgId).2.timeOffset =
      (st.updateTimeOffset obs now correctMsgId).1 ∧
    ((st.updateTimeOffset obs now correctMsgId).1 ≠ st.timeOffset →
      (st.updateTimeOffset obs now correctMsgId).2.lastMsgId = 0) ∧
    ((st.updateTimeOffset obs now correctMsgId).1 = st.timeOffset →
      (st.updateTimeOffset obs now correctMsgId).2.lastMsgId ≠ 0) := by
  have hgt := getNewMsgId_gt st obs
  simp only [updateTimeOffset_eq]
  by_cases hc : correctMsgId.fdiv (2 ^ 32) - now = st.timeOffset
  · rw [if_neg (by simpa using hc)]
    refine ⟨by first | trivial | rfl, by first | trivial | rfl,
      fun h2 => absurd hc h2,
      fun _ => by show (st._getNewMsgId obs).1 ≠ 0; omega⟩
  · rw [if_pos hc]
    exact ⟨by first | trivial | rfl, by first | trivial | rfl,
      fun _ => rfl, fun h2 => absurd h2 hc⟩

/-- Witness for C5 at a concrete state and clock reading. -/
theorem C5_updateTimeOffset_witness :
    (0 : Int) ≤ freshState.lastMsgId ∧
    (freshState.updateTimeOffset ⟨1700000000, 0⟩ 1700000001
        (1700000000 * 2 ^ 32)).1 =
      ((1700000000 * 2 ^ 32 : Int)).fdiv (2 ^ 32) - 1700000001 :=
  ⟨by decide,
    (C5_updateTimeOffset freshState ⟨1700000000, 0⟩ 1700000001
      (1700000000 * 2 ^ 32) (by decide)).1⟩

/-! ## Claim C10 (updateTimeOffset is not a pure read when the offset is
unchanged) -/

/-- C10: `updateTimeOffset` first runs the message-ID generator (mutating
`lastMsgId`) and only then computes the offset; consequently, when the newly
computed offset equals the stored one, `lastMsgId` is neither unchanged nor
reset to zero: it ends at exactly the value the internal `_getNewMsgId` call
stored, at least 4 above its previous value (the previous value being, as in
every reachable state, a non-negative multiple of 4). -/
theorem C10_updateTimeOffset_mutates (st : MTProtoState) (obs : MsgIdObs)
    (now correctMsgId : Int) (h0 : 0 ≤ st.lastMsgId)
    (h4 : (4 : Int) ∣ st.lastMsgId) :
    (st.updateTimeOffset obs now correctMsgId).2.lastMsgId =
      (if (st.updateTimeOffset obs now correctMsgId).1 = st.timeOffset
       then (st._getNewMsgId obs).2.lastMsgId else 0) ∧
    ((st.updateTimeOffset obs now correctMsgId).1 = st.timeOffset →
      st.lastMsgId + 4 ≤ (st.updateTimeOffset obs now correctMsgId).2.lastMsgId ∧
      (st.updateTimeOffset obs now correctMsgId).2.lastMsgId ≠ 0) := by
  have hge := getNewMsgId_ge_add_four st obs h4
  have hst := getNewMsgId_store st obs
  simp only [updateTimeOffset_eq]
  by_cases hc : correctMsgId.fdiv (2 ^ 32) - now = st.timeOffset
  · rw [if_neg (by simpa using hc)]
    refine ⟨by rw [if_pos hc]; exact hst.symm, fun _ => ?_⟩
    constructor
    · show st.lastMsgId + 4 ≤ (st._getNewMsgId obs).1
      exact hge
    · show (st._getNewMsgId obs).1 ≠ 0
      omega
  · rw [if_pos hc]
    exact ⟨by rw [if_neg hc], fun h2 => absurd h2 hc⟩

/-- Witness for C10: a fresh state whose newly computed offset coincides
with the stored offset 0. -/
theorem C10_updateTimeOffset_mutates_witness :
    (4 : Int) ∣ freshState.lastMsgId ∧
    freshState.lastMsgId + 4 ≤
      (freshState.updateTimeOffset ⟨0, 1⟩ 0 0).2.lastMsgId :=
  ⟨⟨0, rfl⟩,
    ((C10_updateTimeOffset_mutates freshState ⟨0, 1⟩ 0 0 (by decide)
      ⟨0, rfl⟩).2 (by decide)).1⟩

/-! ## Length and codec lemmas for the byte helpers -/

theorem natToBytesLE_length (k n : Nat) : (natToBytesLE k n).length = k := by
  induction k generalizing n with
  | zero => rfl
  | succ k ih => simp [natToBytesLE, ih]

theorem toSignedLittleBuffer_length (v : Int) (k : Nat) :
    (toSignedLittleBuffer v k).length = k := by
  simp [toSignedLittleBuffer, natToBytesLE_length]

theorem bytesToNatLE_natToBytesLE (k n : Nat) :
    bytesToNatLE (natToBytesLE k n) = n % 2 ^ (8 * k) := by
  induction k generalizing n with
  | zero => simp [natToBytesLE, bytesToNatLE, Nat.mod_one]
  | succ k ih =>
    have hsplit : n % (256 * 2 ^ (8 * k)) = n % 256 + 256 * (n / 256 % 2 ^ (8 * k)) := by
      have h1 : n = 256 * (n / 256) + n % 256 := (Nat.div_add_mod n 256).symm
      have h2 : n / 256 = 2 ^ (8 * k) * (n / 256 / 2 ^ (8 * k)) + n / 256 % 2 ^ (8 * k) :=
        (Nat.div_add_mod (n / 256) (2 ^ (8 * k))).symm
      have hlt : n % 256 + 256 * (n / 256 % 2 ^ (8 * k)) < 256 * 2 ^ (8 * k) := by
        have ha : n % 256 < 256 := Nat.mod_lt _ (by omega)
        have hb : n / 256 % 2 ^ (8 * k) < 2 ^ (8 * k) :=
          Nat.mod_lt _ (Nat.pos_pow_of_pos _ (by omega))
        omega
      calc n % (256 * 2 ^ (8 * k))
          = (n % 256 + 256 * (n / 256 % 2 ^ (8 * k)) +
             (256 * 2 ^ (8 * k)) * (n / 256 / 2 ^ (8 * k))) % (256 * 2 ^ (8 * k)) := by
            congr 1
            nlinarith [h1, h2]
        _ = (n % 256 + 256 * (n / 256 % 2 ^ (8 * k))) % (256 * 2 ^ (8 * k)) := by
            rw [Nat.add_mul_mod_self_left]
        _ = n % 256 + 256 * (n / 256 % 2 ^ (8 * k)) := Nat.mod_eq_of_lt hlt
    calc bytesToNatLE (natToBytesLE (k + 1) n)
        = n % 256 + 256 * (n / 256 % 2 ^ (8 * k)) := by
          simp [natToBytesLE, bytesToNatLE, ih]
      _ = n % (256 * 2 ^ (8 * k)) := hsplit.symm
      _ = n % 2 ^ (8 * (k + 1)) := by ring_nf

/-- Reading back an 8-byte twos-complement encoding recovers any value in
the signed 64-bit range. -/
theorem readSigned64LE_toSigned (m : Int) (hlo : -(2 ^ 63) ≤ m)
    (hhi : m < 2 ^ 63) :
    readSigned64LE (toSignedLittleBuffer m 8) = m := by
  simp only [readSigned64LE, toSignedLittleBuffer, bytesToNatLE_natToBytesLE,
    show 8 * 8 = 64 from rfl]
  have hlink : m.emod (2 ^ 64) + 2 ^ 64 * m.ediv (2 ^ 64) = m :=
    Int.emod_add_ediv m (2 ^ 64)
  have h0 : 0 ≤ m.emod (2 ^ 64) := Int.emod_nonneg m (by norm_num)
  have h1 : m.emod (2 ^ 64) < 2 ^ 64 := Int.emod_lt_of_pos m (by norm_num)
  split <;> omega

/-- Reading back a 4-byte twos-complement encoding recovers any value in
the signed 32-bit range. -/
theorem readSigned32LE_toSigned (m : Int) (hlo : -(2 ^ 31) ≤ m)
    (hhi : m < 2 ^ 31) :
    readSigned32LE (toSignedLittleBuffer m 4) = m := by
  simp only [readSigned32LE, toSignedLittleBuffer, bytesToNatLE_natToBytesLE,
    show 8 * 4 = 32 from rfl]
  have hlink : m.emod (2 ^ 32) + 2 ^ 32 * m.ediv (2 ^ 32) = m :=
    Int.emod_add_ediv m (2 ^ 32)
  have h0 : 0 ≤ m.emod (2 ^ 32) := Int.emod_nonneg m (by norm_num)
  have h1 : m.emod (2 ^ 32) < 2 ^ 32 := Int.emod_lt_of_pos m (by norm_num)
  split <;> omega

/-! ## SHA-256 output length -/

theorem shaRound_length (st : List Nat) (h : st.length = 8) (k w : Nat) :
    (shaRound st k w).length = 8 := by
  rcases st with _ | ⟨a, _ | ⟨b, _ | ⟨c, _ | ⟨d, _ | ⟨e, _ | ⟨f, _ | ⟨g, _ | ⟨hh, _ | ⟨i, t⟩⟩⟩⟩⟩⟩⟩⟩⟩ <;>
    simp_all [shaRound]

theorem foldl_shaRound_length (l : List (Nat × Nat)) (st : List Nat)
    (h : st.length = 8) :
    (l.foldl (fun s p => shaRound s p.1 p.2) st).length = 8 := by
  induction l generalizing st with
  | nil => exact h
  | cons p ps ih => exact ih _ (shaRound_length _ h p.1 p.2)

theorem shaCompress_length (hs block : List Nat) (h : hs.length = 8) :
    (shaCompress hs block).length = 8 := by
  simp [shaCompress, foldl_shaRound_length _ _ h, h]

theorem foldl_shaCompress_length (bs : List (List Nat)) (hs : List Nat)
    (h : hs.length = 8) :
    (bs.foldl shaCompress hs).length = 8 := by
  induction bs generalizing hs with
  | nil => exact h
  | cons b rest ih => exact ih _ (shaCompress_length hs b h)

theorem natToBytesBE_length (k n : Nat) : (natToBytesBE k n).length = k := by
  simp [natToBytesBE, natToBytesLE_length]

theorem foldr_words_length (hs : List Nat) :
    (hs.foldr (fun h acc => natToBytesBE 4 h ++ acc) []).length =
      4 * hs.length := by
  induction hs with
  | nil => rfl
  | cons h t ih =>
    simp only [List.foldr_cons, List.length_append, natToBytesBE_length, ih,
      List.length_cons]
    omega

/-- SHA-256 always returns 32 bytes. -/
theorem sha256_length (msg : List Nat) : (sha256 msg).length = 32 := by
  simp only [sha256]
  rw [foldr_words_length, foldl_shaCompress_length _ _ (by rfl)]

/-! ## Claim C6 (encryptMessageData output structure) -/

/-- The padding-length formula `((-(len+12)) mod 16) + 12` yields at least
12 bytes and completes `len` to a multiple of 16. -/
theorem padLen_complete (L : Nat) :
    12 ≤ ((-(L + 12 : Int)).emod 16).toNat + 12 ∧
    16 ∣ L + (((-(L + 12 : Int)).emod 16).toNat + 12) := by
  have hlink : (-(L + 12 : Int)).emod 16 + 16 * (-(L + 12 : Int)).ediv 16 =
      -(L + 12 : Int) := Int.emod_add_ediv _ _
  have h0 : 0 ≤ (-(L + 12 : Int)).emod 16 := Int.emod_nonneg _ (by norm_num)
  have h1 : (-(L + 12 : Int)).emod 16 < 16 := Int.emod_lt_of_pos _ (by norm_num)
  exact ⟨by omega, by omega⟩

/-- C6: with an available key, salt and session ID, encryption returns
`keyId (8 bytes LE) || msgKey (16 bytes) || IGE ciphertext of
(salt || sessionId || input || padding)`; the padding length equals
`((-(len+12)) mod 16) + 12` for `len` the length of the
salt-and-session-prefixed plaintext — hence at least 12 bytes, completing
the padded total to a multiple of 16 — and
`msgKey = SHA256(masterKey[88:120] || plaintext || padding)[8:24]`. -/
theorem C6_encrypt_structure (st : MTProtoState)
    (encryptIge : List Nat → List Nat → List Nat → List Nat)
    (randomBytes : Nat → List Nat) (data : List Nat)
    (authKey : List Nat) (keyId : Nat)
    (plain padding msgKey : List Nat) (padLen : Nat)
    (hak : st.authKey = some ⟨some authKey, some keyId⟩)
    (hrnd : ∀ n, (randomBytes n).length = n)
    (hplain : plain =
      (toSignedLittleBuffer st.salt 8 ++ toSignedLittleBuffer st.id 8) ++ data)
    (hpadLen : padLen = ((-(plain.length + 12 : Int)).emod 16).toNat + 12)
    (hpadding : padding = randomBytes padLen)
    (hmsgKey : msgKey =
      ((sha256 ((authKey.drop 88).take 32 ++ plain ++ padding)).drop 8).take 16) :
    st.encryptMessageData encryptIge randomBytes data =
      .ok (natToBytesLE 8 keyId ++ msgKey ++
        encryptIge (_calcKey authKey msgKey true).1
          (_calcKey authKey msgKey true).2 (plain ++ padding)) ∧
    padding.length = padLen ∧
    12 ≤ padLen ∧
    16 ∣ plain.length + padLen := by
  subst hplain hpadLen hpadding hmsgKey
  refine ⟨?_, hrnd _, (padLen_complete _).1, (padLen_complete _).2⟩
  simp only [MTProtoState.encryptMessageData, hak]

/-- A concrete 256-byte master key for witnesses (bytes 0..255). -/
def keyC : List Nat := List.range 256

/-- A concrete state holding a full authorization key (key ID 7, salt 5,
session ID 6, fresh counters, security checks enabled). -/
def stC : MTProtoState :=
  { authKey := some ⟨some keyC, some 7⟩, timeOffset := 0, salt := 5,
    sequence := 0, id := 6, lastMsgId := 0, msgIds := [], securityChecks := true }

/-- The salt-and-session-prefixed plaintext of the C6 witness. -/
def plainC6 : List Nat :=
  (toSignedLittleBuffer stC.salt 8 ++ toSignedLittleBuffer stC.id 8) ++ [1, 2, 3]

/-- Its padding length (`len = 19`, so `((-31) mod 16) + 12 = 13`). -/
def padLenC6 : Nat := ((-(plainC6.length + 12 : Int)).emod 16).toNat + 12

/-- Witness for C6 at a concrete state, key and payload. -/
theorem C6_encrypt_structure_witness :
    stC.authKey = some ⟨some keyC, some 7⟩ ∧
    12 ≤ padLenC6 ∧
    16 ∣ plainC6.length + padLenC6 :=
  ⟨rfl,
    (C6_encrypt_structure stC igeId zeroBytes [1, 2, 3] keyC 7 plainC6
      (zeroBytes padLenC6)
      (((sha256 ((keyC.drop 88).take 32 ++ plainC6 ++ zeroBytes padLenC6)).drop 8).take 16)
      padLenC6 rfl (fun n => by simp [zeroBytes]) rfl rfl rfl rfl).2.2.1,
    (C6_encrypt_structure stC igeId zeroBytes [1, 2, 3] keyC 7 plainC6
      (zeroBytes padLenC6)
      (((sha256 ((keyC.drop 88).take 32 ++ plainC6 ++ zeroBytes padLenC6)).drop 8).take 16)
      padLenC6 rfl (fun n => by simp [zeroBytes]) rfl rfl rfl rfl).2.2.2⟩

/-! ## Claim C7 (message-key integrity check) -/

/-- C7: under an available key whose identifier matches the first 8 bytes
of the input, decryption fails with the message-key-mismatch
`SecurityError` — with the state returned unchanged, so the replay window
is neither consulted nor modified and no plaintext field is parsed —
exactly when `SHA256(masterKey[96:128] || decryptedPlaintext)[8:24]`
differs from the 16-byte message key at bytes 8..24 of the input. -/
theorem C7_msgKey_check {α : Type} (st : MTProtoState)
    (decryptIge : List Nat → List Nat → List Nat → List Nat)
    (tgReadObject : List Nat → Option α)
    (body : List Nat) (authKey : List Nat) (keyId : Nat)
    (hak : st.authKey = some ⟨some authKey, some keyId⟩)
    (hlen : ¬ body.length < 8)
    (hkid : bytesToNatLE (body.take 8) = keyId) :
    st.decryptMessageData decryptIge tgReadObject body =
        .error (.msgKeyMismatch, st) ↔
      (body.drop 8).take 16 ≠
        ((sha256 ((authKey.drop 96).take 32 ++
            decryptIge (_calcKey authKey ((body.drop 8).take 16) false).1
              (_calcKey authKey ((body.drop 8).take 16) false).2
              (body.drop 24))).drop 8).take 16 := by
  simp only [MTProtoState.decryptMessageData, hak]
  rw [if_neg hlen,
    if_neg (show ¬ bytesToNatLE (body.take 8) ≠ keyId by simp [hkid])]
  constructor
  · intro hres
    by_cases hne : (body.drop 8).take 16 ≠
        ((sha256 ((authKey.drop 96).take 32 ++
            decryptIge (_calcKey authKey ((body.drop 8).take 16) false).1
              (_calcKey authKey ((body.drop 8).take 16) false).2
              (body.drop 24))).drop 8).take 16
    · exact hne
    · exfalso
      rw [if_neg hne] at hres
      split at hres
      · simp at hres
      · split at hres
        · simp at hres
        · split at hres
          · simp at hres
          · split at hres <;> simp at hres
  · intro hne
    rw [if_pos hne]

/-- A junk ciphertext with the right key ID but a corrupt message key. -/
def bodyC7 : List Nat :=
  natToBytesLE 8 7 ++ (List.replicate 16 0 ++ List.replicate 16 1)

/-- Witness for C7: the junk ciphertext is rejected with the
message-key-mismatch error and an unchanged state. -/
theorem C7_msgKey_check_witness :
    ¬ bodyC7.length < 8 ∧
    stC.decryptMessageData igeId (fun l => some l) bodyC7 =
      .error (.msgKeyMismatch, stC) :=
  ⟨by decide,
    (C7_msgKey_check stC igeId (fun l => some l) bodyC7 keyC 7 rfl
      (by decide) (by decide)).mpr (by decide)⟩

/-! ## Claim C8 (duplicate-ID check vs securityChecks) -/

/-- C8: once the integrity check passes and the remote message ID is read,
decryption fails with the duplicate-ID `SecurityError` — leaving the
seen-IDs collection unchanged — exactly when the ID is already recorded
and security checks are enabled; when the ID is fresh, or security checks
are disabled, the same call succeeds and records the ID (so decrypting the
same valid ciphertext twice fails the second time precisely when security
checks are enabled). -/
theorem C8_duplicate_check {α : Type} (st : MTProtoState)
    (decryptIge : List Nat → List Nat → List Nat → List Nat)
    (tgReadObject : List Nat → Option α)
    (body : List Nat) (authKey : List Nat) (keyId : Nat) (obj : α)
    (plain : List Nat) (remoteId : Int) (newIds : List Int)
    (hak : st.authKey = some ⟨some authKey, some keyId⟩)
    (hlen : ¬ body.length < 8)
    (hkid : bytesToNatLE (body.take 8) = keyId)
    (hplain : plain = decryptIge (_calcKey authKey ((body.drop 8).take 16) false).1
        (_calcKey authKey ((body.drop 8).take 16) false).2 (body.drop 24))
    (hmk : (body.drop 8).take 16 =
        ((sha256 ((authKey.drop 96).take 32 ++ plain)).drop 8).take 16)
    (hplen : ¬ plain.length < 32)
    (hrid : remoteId = readSigned64LE ((plain.drop 16).take 8))
    (hobj : tgReadObject (plain.drop 32) = some obj)
    (hnew : newIds =
      (if 500 < st.msgIds.length then st.msgIds.tail else st.msgIds) ++ [remoteId]) :
    (st.msgIds.contains remoteId = true → st.securityChecks = true →
      st.decryptMessageData decryptIge tgReadObject body =
        .error (.duplicateMsgId, st)) ∧
    (st.msgIds.contains remoteId = false ∨ st.securityChecks = false →
      st.decryptMessageData decryptIge tgReadObject body =
        .ok (⟨remoteId, readSigned32LE ((plain.drop 24).take 4), obj⟩,
          { st with msgIds := newIds }) ∧
      newIds.contains remoteId = true) := by
  subst hplain
  subst hrid
  subst hnew
  simp only [MTProtoState.decryptMessageData, hak]
  rw [if_neg hlen,
    if_neg (show ¬ bytesToNatLE (body.take 8) ≠ keyId by simp [hkid]),
    if_neg (show ¬ (body.drop 8).take 16 ≠ _ by simpa using hmk),
    if_neg (show ¬ (decryptIge _ _ (body.drop 24)).length < 24 by omega)]
  constructor
  · intro hc hs
    simp only [checkAndRecord, hc, hs, Bool.and_self, if_true]
  · intro hor
    have hcond : (st.msgIds.contains
        (readSigned64LE (((decryptIge
          (_calcKey authKey ((body.drop 8).take 16) false).1
          (_calcKey authKey ((body.drop 8).take 16) false).2
          (body.drop 24)).drop 16).take 8)) &&
        st.securityChecks) = false := by
      rcases hor with h | h
      · rw [h, Bool.false_and]
      · rw [h, Bool.and_false]
    refine ⟨?_, by simp⟩
    simp only [checkAndRecord, hcond, Bool.false_eq_true, if_false,
      if_neg hplen, hobj]

/-- A valid concrete ciphertext for the C8 witness: correct key ID and a
message key recomputed over the plaintext (the identity cipher is used, so
the ciphertext region is the plaintext itself). -/
def plainC8 : List Nat := List.replicate 40 2

/-- Its correct server-direction message key. -/
def msgKeyC8 : List Nat :=
  ((sha256 ((keyC.drop 96).take 32 ++ plainC8)).drop 8).take 16

/-- The full wire frame of the C8 witness. -/
def bodyC8 : List Nat := natToBytesLE 8 7 ++ (msgKeyC8 ++ plainC8)

set_option maxRecDepth 100000 in
/-- Witness for C8: the fresh remote ID of the valid frame is accepted and
recorded. -/
theorem C8_duplicate_check_witness :
    stC.msgIds.contains (readSigned64LE ((plainC8.drop 16).take 8)) = false ∧
    (stC.decryptMessageData igeId (fun l => some l) bodyC8 =
      .ok (⟨readSigned64LE ((plainC8.drop 16).take 8),
            readSigned32LE ((plainC8.drop 24).take 4), plainC8.drop 32⟩,
        { stC with msgIds := [readSigned64LE ((plainC8.drop 16).take 8)] }) ∧
      ([readSigned64LE ((plainC8.drop 16).take 8)] : List Int).contains
        (readSigned64LE ((plainC8.drop 16).take 8)) = true) :=
  ⟨by decide,
    (C8_duplicate_check stC igeId (fun l => some l) bodyC8 keyC 7
      (plainC8.drop 32) plainC8 (readSigned64LE ((plainC8.drop 16).take 8))
      [readSigned64LE ((plainC8.drop 16).take 8)]
      rfl (by decide) (by decide) (by decide) (by decide) (by decide) rfl rfl
      (by decide)).2 (Or.inl (by decide))⟩

/-! ## Claim C9 (round trip) -/

/-- The identity cipher inverts itself for every key and IV — it satisfies
the inverse assumption of the round-trip claim in the strongest possible
form (even across mismatched keys). -/
theorem igeId_inverse (k iv x : List Nat) : igeId k iv (igeId k iv x) = x := rfl

/-- A framed payload: message ID 4, sequence number 1, body length 3, body
`[9, 9, 9]`. -/
def dataC9 : List Nat :=
  toSignedLittleBuffer 4 8 ++
    (toSignedLittleBuffer 1 4 ++ (toSignedLittleBuffer 3 4 ++ [9, 9, 9]))

/-- The client-direction encryption of that payload. -/
def c9ClientOut : List Nat :=
  (stC.encryptMessageData igeId zeroBytes dataC9).toOption.getD []

set_option maxRecDepth 100000 in
/-- C9 counterexample: even under a cipher whose decryption perfectly
inverts its encryption for every key and IV (`igeId`, see `igeId_inverse`),
decrypting the output of `encryptMessageData` on the same state fails with
the message-key mismatch `SecurityError`: the encryptor derives the message
key from `masterKey[88:120]` and the cipher key with the client flag true,
while the decryptor checks `masterKey[96:128]` and derives with the flag
false — `decryptMessageData` inverts the *server*-direction encryption, not
the client one. -/
theorem C9_counterexample :
    stC.encryptMessageData igeId zeroBytes dataC9 = .ok c9ClientOut ∧
    stC.decryptMessageData igeId (fun l => some l) c9ClientOut =
      .error (.msgKeyMismatch, stC) := by
  constructor
  · rfl
  · rfl

/-! ## Slicing lemmas for the round trip -/

theorem drop_append_len {α : Type} {l1 l2 : List α} {n k m : Nat}
    (h : l1.length = n) (hm : m = n + k) :
    (l1 ++ l2).drop m = l2.drop k := by
  subst hm
  subst h
  rw [← List.drop_drop, List.drop_left]

theorem slice16 (a b rest : List Nat) (ha : a.length = 8) (hb : b.length = 8) :
    (a ++ (b ++ rest)).drop 16 = rest := by
  rw [drop_append_len ha (by norm_num : (16 : Nat) = 8 + 8),
    drop_append_len hb (by norm_num : (8 : Nat) = 8 + 0), List.drop_zero]

theorem slice24 (a b c rest : List Nat) (ha : a.length = 8) (hb : b.length = 8)
    (hc : c.length = 8) :
    (a ++ (b ++ (c ++ rest))).drop 24 = rest := by
  rw [drop_append_len ha (by norm_num : (24 : Nat) = 8 + 16),
    drop_append_len hb (by norm_num : (16 : Nat) = 8 + 8),
    drop_append_len hc (by norm_num : (8 : Nat) = 8 + 0), List.drop_zero]

theorem slice32 (a b c d e rest : List Nat) (ha : a.length = 8)
    (hb : b.length = 8) (hc : c.length = 8) (hd : d.length = 4)
    (he : e.length = 4) :
    (a ++ (b ++ (c ++ (d ++ (e ++ rest))))).drop 32 = rest := by
  rw [drop_append_len ha (by norm_num : (32 : Nat) = 8 + 24),
    drop_append_len hb (by norm_num : (24 : Nat) = 8 + 16),
    drop_append_len hc (by norm_num : (16 : Nat) = 8 + 8),
    drop_append_len hd (by norm_num : (8 : Nat) = 4 + 4),
    drop_append_len he (by norm_num : (4 : Nat) = 4 + 0), List.drop_zero]


/-- Every `SHA256(...)[8:24]` slice is 16 bytes. -/
theorem sha_slice16_length (l : List Nat) :
    (((sha256 l).drop 8).take 16).length = 16 := by
  simp [sha256_length]

/-- C9 (amended): `decryptMessageData` inverts the *server-direction*
encryption. For a state with a valid authorization key, salt and session
ID, and a cipher whose IGE decryption inverts its IGE encryption,
decrypting the server-direction encryption of a framed payload succeeds
and yields the framed message ID, sequence number and decoded body, with
the random padding discarded by the decoder. (As `C9_counterexample`
shows, the claim as stated is false for the client-direction
`encryptMessageData` of the same state: its message key and cipher key are
derived from different key-byte windows than decryption checks.) -/
theorem C9_roundtrip_amended {α : Type} (st : MTProtoState)
    (encryptIge decryptIge : List Nat → List Nat → List Nat → List Nat)
    (randomBytes : Nat → List Nat) (tgReadObject : List Nat → Option α)
    (authKey : List Nat) (keyId : Nat) (obj : α)
    (msgId seqNo bodyLen : Int) (bodyBytes data pad out : List Nat)
    (hak : st.authKey = some ⟨some authKey, some keyId⟩)
    (hkid : keyId < 2 ^ 64)
    (hinv : ∀ k iv x, decryptIge k iv (encryptIge k iv x) = x)
    (hdata : data = toSignedLittleBuffer msgId 8 ++
      (toSignedLittleBuffer seqNo 4 ++ (toSignedLittleBuffer bodyLen 4 ++ bodyBytes)))
    (hpad : pad = randomBytes
      (((-((((toSignedLittleBuffer st.salt 8 ++ toSignedLittleBuffer st.id 8) ++
        data).length : Int) + 12)).emod 16).toNat + 12))
    (hmlo : -(2 ^ 63) ≤ msgId) (hmhi : msgId < 2 ^ 63)
    (hslo : -(2 ^ 31) ≤ seqNo) (hshi : seqNo < 2 ^ 31)
    (htg : ∀ p, tgReadObject (bodyBytes ++ p) = some obj)
    (hdup : st.msgIds.contains msgId = false)
    (hout : st.serverEncryptMessageData encryptIge randomBytes data = .ok out) :
    st.decryptMessageData decryptIge tgReadObject out =
      .ok (⟨msgId, seqNo, obj⟩,
        { st with msgIds :=
            (if 500 < st.msgIds.length then st.msgIds.tail else st.msgIds) ++
              [msgId] }) := by
  have hs8 : (toSignedLittleBuffer st.salt 8).length = 8 :=
    toSignedLittleBuffer_length _ _
  have hi8 : (toSignedLittleBuffer st.id 8).length = 8 :=
    toSignedLittleBuffer_length _ _
  have hm8 : (toSignedLittleBuffer msgId 8).length = 8 :=
    toSignedLittleBuffer_length _ _
  have hq4 : (toSignedLittleBuffer seqNo 4).length = 4 :=
    toSignedLittleBuffer_length _ _
  have hl4 : (toSignedLittleBuffer bodyLen 4).length = 4 :=
    toSignedLittleBuffer_length _ _
  have hkb : (natToBytesLE 8 keyId).length = 8 := natToBytesLE_length _ _
  subst hdata
  simp only [MTProtoState.serverEncryptMessageData, hak] at hout
  injection hout with hout
  subst hout
  rw [← hpad]
  simp only [MTProtoState.decryptMessageData, hak, List.append_assoc]
  rw [if_neg (by
    simp only [List.length_append, natToBytesLE_length]
    omega)]
  rw [List.take_left' hkb, bytesToNatLE_natToBytesLE,
    Nat.mod_eq_of_lt (show keyId < 2 ^ (8 * 8) from hkid),
    if_neg (not_ne_iff.mpr rfl)]
  rw [drop_append_len hkb (by norm_num : (24 : Nat) = 8 + 16),
    drop_append_len (sha_slice16_length _) (by norm_num : (16 : Nat) = 16 + 0),
    List.drop_zero]
  rw [drop_append_len hkb (by norm_num : (8 : Nat) = 8 + 0), List.drop_zero,
    List.take_left' (sha_slice16_length _)]
  rw [hinv]
  rw [if_neg (not_ne_iff.mpr rfl)]
  rw [if_neg (by
    simp only [List.length_append, toSignedLittleBuffer_length]
    omega)]
  rw [slice16 _ _ _ hs8 hi8, List.take_left' hm8,
    readSigned64LE_toSigned msgId hmlo hmhi]
  simp only [checkAndRecord, hdup, Bool.false_and, Bool.false_eq_true,
    if_false]
  rw [if_neg (by
    simp only [List.length_append, toSignedLittleBuffer_length]
    omega)]
  rw [slice24 _ _ _ _ hs8 hi8 hm8, List.take_left' hq4,
    readSigned32LE_toSigned seqNo hslo hshi]
  rw [slice32 _ _ _ _ _ _ hs8 hi8 hm8 hq4 hl4, htg]

/-- The server-direction encryption of the C9 payload. -/
def c9ServerOut : List Nat :=
  (stC.serverEncryptMessageData igeId zeroBytes dataC9).toOption.getD []

set_option maxRecDepth 100000 in
/-- Witness for the amended C9: the concrete server-encrypted frame decrypts
to message ID 4, sequence number 1 and the decoded object. -/
theorem C9_roundtrip_amended_witness :
    stC.serverEncryptMessageData igeId zeroBytes dataC9 = .ok c9ServerOut ∧
    stC.decryptMessageData igeId (fun _ => some 0) c9ServerOut =
      .ok (⟨4, 1, (0 : Nat)⟩,
        { stC with msgIds :=
            (if 500 < stC.msgIds.length then stC.msgIds.tail else stC.msgIds) ++
              [4] }) :=
  ⟨rfl,
    C9_roundtrip_amended stC igeId igeId zeroBytes (fun _ => some 0) keyC 7 0
      4 1 3 [9, 9, 9] dataC9 (List.replicate 13 0) c9ServerOut
      rfl (by norm_num) (fun _ _ _ => rfl) rfl (by decide)
      (by norm_num) (by norm_num) (by norm_num) (by norm_num)
      (fun p => rfl) (by decide) rfl⟩
